import Mathlib

attribute [local semireducible] Rat.mul Rat.add Rat.sub Rat.inv

/-!
Verification development for the perspective-transform routine in
`src/cbits/perspectivetransform.c`.

The C code works on IEEE-754 doubles.  We model a double as an `EDouble`:
either a finite value (an exact rational -- rounding and overflow of finite
arithmetic are not modelled), a signed infinity, or NaN.  The special-value
propagation rules (NaN absorbs, comparisons with NaN are false, `fabs`,
`isnan`, `isinf`) follow IEEE-754, which is what the validation logic of the
C code inspects.

Arrays (`double[8][8]`, `double[8][10]`, `double[8]`) are modelled as lists;
the augmented matrix keeps its 9 meaningful columns (the C buffer has a tenth
column that is never read or written).  `solve_linear_system` is embedded in
state-passing style over a `SolverState` holding the caller-visible arrays
`A`, `b`, `x` and the local buffer `aug`, so that the claim about `A` and `b`
being left untouched is a statement about the embedding rather than a
tautology of functional programming.
-/

/-- Model of an IEEE-754 double: a finite value (exact rational), a signed
infinity, or NaN. -/
inductive EDouble where
  | fin (q : ℚ)
  | pinf
  | ninf
  | nan
deriving DecidableEq

/-- C `isnan`. -/
def EDouble.isnan : EDouble → Bool
  | .nan => true
  | _ => false

/-- C `isinf`. -/
def EDouble.isinf : EDouble → Bool
  | .pinf => true
  | .ninf => true
  | _ => false

/-- A value that is neither NaN nor infinite. -/
def EDouble.isFinite : EDouble → Bool
  | .fin _ => true
  | _ => false

/-- IEEE negation. -/
def EDouble.neg : EDouble → EDouble
  | .fin q => .fin (Rat.neg q)
  | .pinf => .ninf
  | .ninf => .pinf
  | .nan => .nan

/-- C `fabs`. -/
def EDouble.fabs : EDouble → EDouble
  | .fin q => .fin (if q < 0 then Rat.neg q else q)
  | .pinf => .pinf
  | .ninf => .pinf
  | .nan => .nan

/-- IEEE addition (finite part exact). -/
def EDouble.add : EDouble → EDouble → EDouble
  | .nan, _ => .nan
  | _, .nan => .nan
  | .fin a, .fin b => .fin (Rat.add a b)
  | .pinf, .ninf => .nan
  | .ninf, .pinf => .nan
  | .pinf, _ => .pinf
  | _, .pinf => .pinf
  | .ninf, _ => .ninf
  | _, .ninf => .ninf

/-- IEEE subtraction, `a - b = a + (-b)`. -/
def EDouble.sub (a b : EDouble) : EDouble := a.add b.neg

/-- IEEE multiplication (finite part exact; `0 * inf = NaN`). -/
def EDouble.mul : EDouble → EDouble → EDouble
  | .nan, _ => .nan
  | _, .nan => .nan
  | .fin a, .fin b => .fin (Rat.mul a b)
  | .fin a, .pinf => if a = 0 then .nan else if 0 < a then .pinf else .ninf
  | .fin a, .ninf => if a = 0 then .nan else if 0 < a then .ninf else .pinf
  | .pinf, .fin b => if b = 0 then .nan else if 0 < b then .pinf else .ninf
  | .ninf, .fin b => if b = 0 then .nan else if 0 < b then .ninf else .pinf
  | .pinf, .pinf => .pinf
  | .pinf, .ninf => .ninf
  | .ninf, .pinf => .ninf
  | .ninf, .ninf => .pinf

/-- IEEE division (finite part exact; division by zero gives an infinity or
NaN; signed zeros are not modelled, so `x / 0` uses the sign of `x` only). -/
def EDouble.div : EDouble → EDouble → EDouble
  | .nan, _ => .nan
  | _, .nan => .nan
  | .fin a, .fin b =>
      if b = 0 then (if a = 0 then .nan else if 0 < a then .pinf else .ninf)
      else .fin (Rat.div a b)
  | .fin _, .pinf => .fin 0
  | .fin _, .ninf => .fin 0
  | .pinf, .fin b => if 0 ≤ b then .pinf else .ninf
  | .ninf, .fin b => if 0 ≤ b then .ninf else .pinf
  | .pinf, .pinf => .nan
  | .pinf, .ninf => .nan
  | .ninf, .pinf => .nan
  | .ninf, .ninf => .nan

/-- IEEE strict `<`: any comparison involving NaN is false. -/
def EDouble.lt : EDouble → EDouble → Bool
  | .nan, _ => false
  | _, .nan => false
  | .fin a, .fin b => decide (a < b)
  | .fin _, .pinf => true
  | .fin _, .ninf => false
  | .pinf, _ => false
  | .ninf, .ninf => false
  | .ninf, _ => true

/-- The singularity threshold `epsilon = 1e-10` of `solve_linear_system`. -/
def epsVal : EDouble := .fin (mkRat 1 10000000000)

/-- The magnitude bound `1e6` used to validate solved unknowns. -/
def boundVal : EDouble := .fin (mkRat 1000000 1)

/-! ### List accessors

The C code indexes fixed-size stack arrays.  We model an array read with a
defaulting accessor `lget` and a write with `lset` (out-of-range writes are
dropped; all writes performed by the embedded code are in range). -/

/-- Read element `i` of a list, with default `d` out of range. -/
def lget {α : Type} (d : α) : List α → Nat → α
  | [], _ => d
  | a :: _, 0 => a
  | _ :: l, n + 1 => lget d l n

/-- Write element `i` of a list (no-op out of range). -/
def lset {α : Type} : List α → Nat → α → List α
  | [], _, _ => []
  | _ :: l, 0, v => v :: l
  | a :: l, n + 1, v => a :: lset l n v

/-- An 8-vector of doubles (`double[8]`). -/
abbrev Vec8 := List EDouble

/-- An 8-row matrix of doubles (`double[8][8]` or the 8×9 meaningful part of
the augmented `double[8][10]`). -/
abbrev Mat8 := List (List EDouble)

/-- Read entry `i` of a vector (`v[i]`). -/
def vget (x : Vec8) (i : Nat) : EDouble := lget (.fin 0) x i

/-- Read row `r` of a matrix. -/
def rget (a : Mat8) (r : Nat) : List EDouble := lget [] a r

/-- Read entry `(r, c)` of a matrix (`a[r][c]`). -/
def mget (a : Mat8) (r c : Nat) : EDouble := vget (rget a r) c

/-! ### The linear-system solver (`solve_linear_system`) -/

/-- One candidate step of the partial-pivot search: the body of the
`for(k = i+1; k < n; k++) if(fabs(aug[k][i]) > max_val) ...` loop. -/
def pstep (a : Mat8) (i : Nat) (p : Nat × EDouble) (k : Nat) : Nat × EDouble :=
  if i < k then
    if p.2.lt ((mget a k i).fabs) then (k, (mget a k i).fabs) else p
  else p

/-- Partial-pivot search at column `i`: starting from `(i, fabs(aug[i][i]))`,
scan rows `k > i` for a strictly larger `fabs(aug[k][i])` (IEEE `>`). -/
def pivotSearch (a : Mat8) (i : Nat) : Nat × EDouble :=
  (List.range 8).foldl (pstep a i) (i, (mget a i i).fabs)

/-- Swap rows `r1` and `r2` (the C loop swaps every meaningful column). -/
def swapRows (a : Mat8) (r1 r2 : Nat) : Mat8 :=
  lset (lset a r1 (rget a r2)) r2 (rget a r1)

/-- Eliminate column `i` from row `j`:
`factor = aug[j][i]/aug[i][i]; for(k = i; k <= 8; k++) aug[j][k] -= factor * aug[i][k]`. -/
def elimRow (a : Mat8) (i j : Nat) : Mat8 :=
  lset a j ((List.range 9).map (fun k =>
    if i ≤ k then (mget a j k).sub (((mget a j i).div (mget a i i)).mul (mget a i k))
    else mget a j k))

/-- The body of the `for(j = i+1; j < n; j++)` elimination loop. -/
def ebstep (i : Nat) (acc : Mat8) (j : Nat) : Mat8 :=
  if i < j then elimRow acc i j else acc

/-- Eliminate column `i` from every row below row `i`. -/
def elimBelow (a : Mat8) (i : Nat) : Mat8 :=
  (List.range 8).foldl (ebstep i) a

/-- One step of forward elimination at pivot column `i`: pivot search,
singularity check against `epsilon`, conditional row swap, elimination.
`none` models `return 0` (the matrix is nearly singular); in that case the
buffer is left as it was at the start of the step. -/
def elimStep (a : Mat8) (i : Nat) : Option Mat8 :=
  let p := pivotSearch a i
  if p.2.lt epsVal then none
  else some (elimBelow (if p.1 ≠ i then swapRows a i p.1 else a) i)

/-- Forward-elimination loop body; a failed state `(false, _)` is carried
unchanged to the end of the loop (modelling the early `return 0`). -/
def festep (st : Bool × Mat8) (i : Nat) : Bool × Mat8 :=
  match st with
  | (false, a) => (false, a)
  | (true, a) =>
    match elimStep a i with
    | none => (false, a)
    | some a' => (true, a')

/-- Gaussian elimination with partial pivoting: the `for(i = 0; i < n; i++)`
loop of `solve_linear_system`. -/
def forwardElim (a : Mat8) : Bool × Mat8 :=
  (List.range 8).foldl festep (true, a)

/-- The two distinct failure branches of the back-substitution loop (the C
function reports both as `return 0`, with distinct debug log messages). -/
inductive BackSubError where
  | zeroPivot
  | invalidResult
deriving DecidableEq

/-- One step of back substitution at row `i`: the zero-pivot re-check, then
`x[i] = (aug[i][8] - Σ_{j>i} aug[i][j]*x[j]) / aug[i][i]`, then the
NaN/infinity check on the freshly written `x[i]`. -/
def backSubAt (a : Mat8) (x : Vec8) (i : Nat) : Option BackSubError × Vec8 :=
  if ((mget a i i).fabs).lt epsVal then (some .zeroPivot, x)
  else
    let s1 := (List.range 8).foldl
      (fun s j => if i < j then s.sub ((mget a i j).mul (vget x j)) else s)
      (mget a i 8)
    let xi := s1.div (mget a i i)
    let x' := lset x i xi
    if xi.isnan || xi.isinf then (some .invalidResult, x') else (none, x')

/-- Back-substitution loop body; an error state is carried unchanged
(modelling the early `return 0`). -/
def bstep (a : Mat8) (st : Option BackSubError × Vec8) (i : Nat) :
    Option BackSubError × Vec8 :=
  match st with
  | (some e, y) => (some e, y)
  | (none, y) => backSubAt a y i

/-- Back substitution: the `for(i = n-1; i >= 0; i--)` loop. -/
def backSub (a : Mat8) (x : Vec8) : Option BackSubError × Vec8 :=
  ((List.range 8).reverse).foldl (bstep a) (none, x)

/-- The arrays visible to `solve_linear_system`: the caller's coefficient
matrix `A`, right-hand side `b` and output vector `x`, and the local
augmented buffer `aug`. -/
structure SolverState where
  A : Mat8
  b : Vec8
  aug : Mat8
  x : Vec8

/-- Build the augmented matrix `[A|b]`:
`aug[i][j] = A[i][j]` for `j < 8` and `aug[i][8] = b[i]`. -/
def initAug (s : SolverState) : SolverState :=
  { s with aug := (List.range 8).map (fun r =>
      (List.range 8).map (fun c => mget s.A r c) ++ [vget s.b r]) }

/-- `solve_linear_system`: returns the C result flag (1 = success modelled as
`true`) together with the final contents of all four arrays. -/
def solve_linear_system (s : SolverState) : Bool × SolverState :=
  let s1 := initAug s
  match forwardElim s1.aug with
  | (false, augF) => (false, { s1 with aug := augF })
  | (true, augF) =>
    match backSub augF s1.x with
    | (some _, xF) => (false, { s1 with aug := augF, x := xF })
    | (none, xF) => (true, { s1 with aug := augF, x := xF })

/-- Call `solve_linear_system` the way `calculate_perspective_transform`
does: on a zero-initialised `x` (and a transient `aug` buffer), keeping the
solution vector only on success. -/
def solveSystem (A : Mat8) (b : Vec8) : Option Vec8 :=
  let r := solve_linear_system { A := A, b := b, aug := [], x := List.replicate 8 (.fin 0) }
  if r.1 then some r.2.x else none

/-! ### The homography builder (`calculate_perspective_transform`) -/

/-- The `Corners` struct: four points in `{tl, tr, br, bl}` order. -/
structure Corners where
  tl_x : EDouble
  tl_y : EDouble
  tr_x : EDouble
  tr_y : EDouble
  br_x : EDouble
  br_y : EDouble
  bl_x : EDouble
  bl_y : EDouble
deriving DecidableEq

/-- The `Matrix3x3` struct, row-major. -/
structure Matrix3x3 where
  m00 : EDouble
  m01 : EDouble
  m02 : EDouble
  m10 : EDouble
  m11 : EDouble
  m12 : EDouble
  m20 : EDouble
  m21 : EDouble
  m22 : EDouble
deriving DecidableEq

/-- The static identity-matrix fallback. -/
def identityMatrix : Matrix3x3 :=
  ⟨.fin 1, .fin 0, .fin 0, .fin 0, .fin 1, .fin 0, .fin 0, .fin 0, .fin 1⟩

/-- The 16-coordinate NaN validation of `calculate_perspective_transform`. -/
def hasNaNInput (s d : Corners) : Bool :=
  s.tl_x.isnan || s.tl_y.isnan ||
  s.tr_x.isnan || s.tr_y.isnan ||
  s.br_x.isnan || s.br_y.isnan ||
  s.bl_x.isnan || s.bl_y.isnan ||
  d.tl_x.isnan || d.tl_y.isnan ||
  d.tr_x.isnan || d.tr_y.isnan ||
  d.br_x.isnan || d.br_y.isnan ||
  d.bl_x.isnan || d.bl_y.isnan

/-- The `switch(i)` extraction of `(srcX, srcY, dstX, dstY)` for
correspondence `i` (the unreachable default leaves the zero initialisers). -/
def corner4 (s d : Corners) (i : Nat) : EDouble × EDouble × EDouble × EDouble :=
  match i with
  | 0 => (s.tl_x, s.tl_y, d.tl_x, d.tl_y)
  | 1 => (s.tr_x, s.tr_y, d.tr_x, d.tr_y)
  | 2 => (s.br_x, s.br_y, d.br_x, d.br_y)
  | 3 => (s.bl_x, s.bl_y, d.bl_x, d.bl_y)
  | _ => (.fin 0, .fin 0, .fin 0, .fin 0)

/-- The per-correspondence infinity check
`isinf(srcX) || isinf(srcY) || isinf(dstX) || isinf(dstY)`. -/
def cornerInf (s d : Corners) (i : Nat) : Bool :=
  (corner4 s d i).1.isinf || (corner4 s d i).2.1.isinf ||
  (corner4 s d i).2.2.1.isinf || (corner4 s d i).2.2.2.isinf

/-- One iteration of the equation-setup loop: validate the extracted
coordinates, then write row `i` (x-equation) and row `i+4` (y-equation) of
`A` and `b`. -/
def buildRows (s d : Corners) (Ab : Mat8 × Vec8) (i : Nat) : Option (Mat8 × Vec8) :=
  if cornerInf s d i then none
  else
    let c := corner4 s d i
    let srcX := c.1
    let srcY := c.2.1
    let dstX := c.2.2.1
    let dstY := c.2.2.2
    let rowI := lset (lset (lset (lset (lset (rget Ab.1 i)
      0 srcX) 1 srcY) 2 (.fin 1)) 6 ((srcX.neg).mul dstX)) 7 ((srcY.neg).mul dstX)
    let rowI4 := lset (lset (lset (lset (lset (rget Ab.1 (i + 4))
      3 srcX) 4 srcY) 5 (.fin 1)) 6 ((srcX.neg).mul dstY)) 7 ((srcY.neg).mul dstY)
    some (lset (lset Ab.1 i rowI) (i + 4) rowI4,
          lset (lset Ab.2 i dstX) (i + 4) dstY)

/-- The zero-initialised coefficient matrix `double A[8][8] = {{0}}`. -/
def zeroMat : Mat8 := List.replicate 8 (List.replicate 8 (.fin 0))

/-- The zero-initialised right-hand side `double b[8] = {0}`. -/
def zeroVec : Vec8 := List.replicate 8 (.fin 0)

/-- The `for(int i = 0; i < 4; i++)` equation-setup loop; `none` models the
early `return &identity` on an infinite coordinate. -/
def buildSystem (s d : Corners) : Option (Mat8 × Vec8) :=
  (List.range 4).foldlM (buildRows s d) (zeroMat, zeroVec)

/-- Disjunction of `isinf` over all 16 input coordinates (the condition under
which some iteration of the setup loop bails out). -/
def anyInf (s d : Corners) : Bool :=
  s.tl_x.isinf || s.tl_y.isinf ||
  s.tr_x.isinf || s.tr_y.isinf ||
  s.br_x.isinf || s.br_y.isinf ||
  s.bl_x.isinf || s.bl_y.isinf ||
  d.tl_x.isinf || d.tl_y.isinf ||
  d.tr_x.isinf || d.tr_y.isinf ||
  d.br_x.isinf || d.br_y.isinf ||
  d.bl_x.isinf || d.bl_y.isinf

/-- The solution validation loop:
`isnan(x[i]) || isinf(x[i]) || fabs(x[i]) > 1e6` for some `i < 8`. -/
def badSolution (x : Vec8) : Bool :=
  (List.range 8).any (fun i =>
    (vget x i).isnan || (vget x i).isinf || boundVal.lt ((vget x i).fabs))

/-- Assemble the result matrix from the solved unknowns, `m22 = 1.0`. -/
def mkMatrix (x : Vec8) : Matrix3x3 :=
  ⟨vget x 0, vget x 1, vget x 2, vget x 3, vget x 4, vget x 5,
   vget x 6, vget x 7, .fin 1⟩

/-- The final defensive validation of the nine result entries. -/
def resultInvalid (m : Matrix3x3) : Bool :=
  m.m00.isnan || m.m01.isnan || m.m02.isnan ||
  m.m10.isnan || m.m11.isnan || m.m12.isnan ||
  m.m20.isnan || m.m21.isnan || m.m22.isnan ||
  m.m00.isinf || m.m01.isinf || m.m02.isinf ||
  m.m10.isinf || m.m11.isinf || m.m12.isinf ||
  m.m20.isinf || m.m21.isinf || m.m22.isinf

/-- `calculate_perspective_transform`: `Option Corners` models the nullable
`Corners *` arguments; the returned matrix is modelled by value (the C
function returns a heap pointer, or a pointer to the static identity). -/
def calculate_perspective_transform (src dst : Option Corners) : Matrix3x3 :=
  match src, dst with
  | some s, some d =>
    if hasNaNInput s d then identityMatrix
    else
      match buildSystem s d with
      | none => identityMatrix
      | some (A, b) =>
        match solveSystem A b with
        | none => identityMatrix
        | some x =>
          if badSolution x then identityMatrix
          else
            let result := mkMatrix x
            if resultInvalid result then identityMatrix
            else result
  | _, _ => identityMatrix

/-! ### Basic lemmas about the list accessors -/

theorem lget_lset_eq {α : Type} (d v : α) :
    ∀ (l : List α) (i : Nat), i < l.length → lget d (lset l i v) i = v := by
  intro l
  induction l with
  | nil => intro i h; simp at h
  | cons a t ih =>
    intro i h
    cases i with
    | zero => rfl
    | succ n => exact ih n (by simpa using h)

theorem lget_lset_ne {α : Type} (d v : α) :
    ∀ (l : List α) (i j : Nat), j ≠ i → lget d (lset l i v) j = lget d l j := by
  intro l
  induction l with
  | nil => intro i j _; rfl
  | cons a t ih =>
    intro i j hne
    cases i with
    | zero =>
      cases j with
      | zero => exact absurd rfl hne
      | succ m => rfl
    | succ n =>
      cases j with
      | zero => rfl
      | succ m => exact ih n m (fun h => hne (by rw [h]))

theorem length_lset {α : Type} (v : α) :
    ∀ (l : List α) (i : Nat), (lset l i v).length = l.length := by
  intro l
  induction l with
  | nil => intro i; rfl
  | cons a t ih =>
    intro i
    cases i with
    | zero => rfl
    | succ n => simp [lset, ih n]

theorem lget_of_le {α : Type} (d : α) :
    ∀ (l : List α) (i : Nat), l.length ≤ i → lget d l i = d := by
  intro l
  induction l with
  | nil => intro i _; rfl
  | cons a t ih =>
    intro i h
    cases i with
    | zero => simp at h
    | succ n => exact ih n (by simpa using h)

theorem lget_eq_getElem {α : Type} (d : α) :
    ∀ (l : List α) (i : Nat) (h : i < l.length), lget d l i = l[i] := by
  intro l
  induction l with
  | nil => intro i h; simp at h
  | cons a t ih =>
    intro i h
    cases i with
    | zero => rfl
    | succ n => simpa using ih n (by simpa using h)

theorem lget_map_range {α : Type} (d : α) (f : Nat → α) (n c : Nat) (h : c < n) :
    lget d (List.map f (List.range n)) c = f c := by
  have hlen : c < (List.map f (List.range n)).length := by simpa using h
  rw [lget_eq_getElem d _ c hlen]
  simp

/-- A generic invariant-preservation principle for `List.foldl`. -/
theorem foldl_inv {σ α : Type} (f : σ → α → σ) (P : σ → Prop) :
    ∀ (L : List α) (s : σ), P s → (∀ t x, x ∈ L → P t → P (f t x)) → P (L.foldl f s) := by
  intro L
  induction L with
  | nil => intro s hs _; exact hs
  | cons a t ih =>
    intro s hs hstep
    exact ih (f s a) (hstep s a (List.mem_cons_self a t) hs)
      (fun u x hx hu => hstep u x (List.mem_cons_of_mem a hx) hu)

/-! ### Lemmas about the IEEE comparison -/

theorem edlt_irrefl (a : EDouble) : a.lt a = false := by
  cases a <;> simp [EDouble.lt]

theorem edlt_trans {a b c : EDouble} (h1 : a.lt b = true) (h2 : b.lt c = true) :
    a.lt c = true := by
  cases a <;> cases b <;> cases c <;> simp_all [EDouble.lt]
  exact lt_trans h1 h2

theorem edlt_nan_right (a : EDouble) : a.lt .nan = false := by
  cases a <;> simp [EDouble.lt]

theorem edlt_true_left_not_nan {a b : EDouble} (h : a.lt b = true) : a.isnan = false := by
  cases a <;> simp_all [EDouble.lt, EDouble.isnan]

theorem edlt_true_right_not_nan {a b : EDouble} (h : a.lt b = true) : b.isnan = false := by
  cases a <;> cases b <;> simp_all [EDouble.lt, EDouble.isnan]

theorem edlt_total {a b : EDouble} (ha : a.isnan = false) (hb : b.isnan = false) :
    a.lt b = true ∨ b.lt a = true ∨ a = b := by
  cases a with
  | fin qa =>
    cases b with
    | fin qb =>
      rcases lt_trichotomy qa qb with h | h | h
      · exact Or.inl (by simp [EDouble.lt, h])
      · exact Or.inr (Or.inr (by rw [h]))
      · exact Or.inr (Or.inl (by simp [EDouble.lt, h]))
    | pinf => exact Or.inl (by simp [EDouble.lt])
    | ninf => exact Or.inr (Or.inl (by simp [EDouble.lt]))
    | nan => simp [EDouble.isnan] at hb
  | pinf =>
    cases b with
    | fin qb => exact Or.inr (Or.inl (by simp [EDouble.lt]))
    | pinf => exact Or.inr (Or.inr rfl)
    | ninf => exact Or.inr (Or.inl (by simp [EDouble.lt]))
    | nan => simp [EDouble.isnan] at hb
  | ninf =>
    cases b with
    | fin qb => exact Or.inl (by simp [EDouble.lt])
    | pinf => exact Or.inl (by simp [EDouble.lt])
    | ninf => exact Or.inr (Or.inr rfl)
    | nan => simp [EDouble.isnan] at hb
  | nan => simp [EDouble.isnan] at ha

theorem fabs_fin_eq_abs (q : ℚ) : (EDouble.fin q).fabs = .fin |q| := by
  simp only [EDouble.fabs]
  split
  · rw [abs_of_neg ‹_›]; rfl
  · rw [abs_of_nonneg (le_of_not_lt ‹_›)]

/-! ### Frame property of the solver (claim C10) -/

/-- C10: `solve_linear_system` works on its private augmented copy and output
vector only; the caller's `A` and `b` arrays hold the same values after the
call as before, whether the solver succeeds or fails. -/
theorem claim10_inputs_preserved (s : SolverState) :
    (solve_linear_system s).2.A = s.A ∧ (solve_linear_system s).2.b = s.b := by
  have hdef : solve_linear_system s =
      (match forwardElim (initAug s).aug with
       | (false, augF) => (false, { initAug s with aug := augF })
       | (true, augF) =>
         match backSub augF (initAug s).x with
         | (some _, xF) => (false, { initAug s with aug := augF, x := xF })
         | (none, xF) => (true, { initAug s with aug := augF, x := xF })) := rfl
  rcases hfe : forwardElim (initAug s).aug with ⟨ok, augF⟩
  rcases hbs : backSub augF (initAug s).x with ⟨err, xF⟩
  rw [hdef, hfe]
  cases ok
  · simp [initAug]
  · simp only [hbs]
    cases err <;> simp [initAug]

/-! ### Fallback behaviour of the builder (claims C1, C3) -/

/-- An infinite coordinate makes the equation-setup loop bail out. -/
theorem buildSystem_none_of_anyInf (s d : Corners) (h : anyInf s d = true) :
    buildSystem s d = none := by
  have hiff : (cornerInf s d 0 || cornerInf s d 1 || cornerInf s d 2 || cornerInf s d 3) = true := by
    simp only [cornerInf, corner4]
    simp only [anyInf, Bool.or_eq_true] at h ⊢
    tauto
  have h4 : List.range 4 = [0, 1, 2, 3] := rfl
  simp only [buildSystem, h4]
  cases h0 : cornerInf s d 0
  · cases h1 : cornerInf s d 1
    · cases h2 : cornerInf s d 2
      · cases h3 : cornerInf s d 3
        · rw [h0, h1, h2, h3] at hiff; simp at hiff
        · simp [List.foldlM_cons, List.foldlM_nil, buildRows, h0, h1, h2, h3]
      · simp [List.foldlM_cons, List.foldlM_nil, buildRows, h0, h1, h2]
    · simp [List.foldlM_cons, List.foldlM_nil, buildRows, h0, h1]
  · simp [List.foldlM_cons, List.foldlM_nil, buildRows, h0]

/-- C1: the function is total and every internal stage failure (null input,
NaN input, infinite coordinate, solver failure, out-of-range or non-finite
solution, invalid result matrix) is absorbed into the identity fallback. -/
theorem claim1_total_fallback (src dst : Option Corners)
    (h : src = none ∨ dst = none ∨ ∃ s d, src = some s ∧ dst = some d ∧
      (hasNaNInput s d = true ∨ buildSystem s d = none ∨
       (∃ A b, buildSystem s d = some (A, b) ∧ solveSystem A b = none) ∨
       (∃ A b x, buildSystem s d = some (A, b) ∧ solveSystem A b = some x ∧
         badSolution x = true) ∨
       (∃ A b x, buildSystem s d = some (A, b) ∧ solveSystem A b = some x ∧
         badSolution x = false ∧ resultInvalid (mkMatrix x) = true))) :
    calculate_perspective_transform src dst = identityMatrix := by
  rcases h with h | h | ⟨s, d, hs, hd, hc⟩
  · subst h; cases dst <;> rfl
  · subst h; cases src <;> rfl
  · subst hs; subst hd
    simp only [calculate_perspective_transform]
    rcases hc with hnan | hbs | ⟨A, b, hbs, hsv⟩ | ⟨A, b, x, hbs, hsv, hbad⟩ |
      ⟨A, b, x, hbs, hsv, hbad, hri⟩
    · simp [hnan]
    · simp [hbs]
    · simp [hbs, hsv]
    · simp [hbs, hsv, hbad]
    · simp [hbs, hsv, hbad, hri]

/-- C3: a null corner pointer, a NaN coordinate, or an infinite coordinate
each yield exactly the identity matrix. -/
theorem claim3_null_nan_inf (src dst : Option Corners)
    (h : src = none ∨ dst = none ∨ ∃ s d, src = some s ∧ dst = some d ∧
      (hasNaNInput s d = true ∨ anyInf s d = true)) :
    calculate_perspective_transform src dst = identityMatrix := by
  rcases h with h | h | ⟨s, d, hs, hd, hc⟩
  · subst h; cases dst <;> rfl
  · subst h; cases src <;> rfl
  · subst hs; subst hd
    simp only [calculate_perspective_transform]
    rcases hc with hnan | hinf
    · simp [hnan]
    · rw [buildSystem_none_of_anyInf s d hinf]
      simp

/-! ### Shape of every returned matrix (claim C2) -/

/-- A solved unknown that passes the validation loop is a finite value of
magnitude at most `1e6`. -/
theorem fin_entry_of_checks (e : EDouble) (h1 : e.isnan = false) (h2 : e.isinf = false)
    (h3 : boundVal.lt e.fabs = false) : ∃ q : ℚ, e = .fin q ∧ |q| ≤ 1000000 := by
  cases e with
  | fin q =>
    refine ⟨q, rfl, ?_⟩
    rw [fabs_fin_eq_abs] at h3
    have hb : boundVal = .fin 1000000 := by norm_num [boundVal, Rat.mkRat_eq_div]
    rw [hb] at h3
    simp only [EDouble.lt, decide_eq_false_iff_not] at h3
    exact le_of_not_lt h3
  | pinf => simp [EDouble.isinf] at h2
  | ninf => simp [EDouble.isinf] at h2
  | nan => simp [EDouble.isnan] at h1

/-- C2: every returned matrix is either the identity fallback or an
assembled solution with all nine entries finite, `m22 = 1.0` exactly, and
the eight free entries bounded in magnitude by `1e6`. -/
theorem claim2_output_shape (src dst : Option Corners) :
    calculate_perspective_transform src dst = identityMatrix ∨
    ∃ q0 q1 q2 q3 q4 q5 q6 q7 : ℚ,
      calculate_perspective_transform src dst =
        { m00 := .fin q0, m01 := .fin q1, m02 := .fin q2, m10 := .fin q3, m11 := .fin q4,
          m12 := .fin q5, m20 := .fin q6, m21 := .fin q7, m22 := .fin 1 } ∧
      |q0| ≤ 1000000 ∧ |q1| ≤ 1000000 ∧ |q2| ≤ 1000000 ∧ |q3| ≤ 1000000 ∧
      |q4| ≤ 1000000 ∧ |q5| ≤ 1000000 ∧ |q6| ≤ 1000000 ∧ |q7| ≤ 1000000 := by
  cases src with
  | none => left; cases dst <;> rfl
  | some s =>
    cases dst with
    | none => left; rfl
    | some d =>
      simp only [calculate_perspective_transform]
      cases hn : hasNaNInput s d
      case true => left; simp [hn]
      case false =>
      cases hbs : buildSystem s d with
      | none => left; simp [hn, hbs]
      | some Ab =>
        rcases Ab with ⟨A, b⟩
        cases hsv : solveSystem A b with
        | none => left; simp [hn, hbs, hsv]
        | some x =>
          cases hbad : badSolution x
          case true => left; simp [hn, hbs, hsv, hbad]
          case false =>
          cases hri : resultInvalid (mkMatrix x)
          case true => left; simp [hn, hbs, hsv, hbad, hri]
          case false =>
          have hbad0 : badSolution x = false := hbad
          have h8 : List.range 8 = [0, 1, 2, 3, 4, 5, 6, 7] := rfl
          simp only [badSolution, h8, List.any_cons, List.any_nil,
            Bool.or_eq_false_iff] at hbad
          obtain ⟨⟨⟨h0n, h0i⟩, h0b⟩, ⟨⟨h1n, h1i⟩, h1b⟩, ⟨⟨h2n, h2i⟩, h2b⟩,
            ⟨⟨h3n, h3i⟩, h3b⟩, ⟨⟨h4n, h4i⟩, h4b⟩, ⟨⟨h5n, h5i⟩, h5b⟩,
            ⟨⟨h6n, h6i⟩, h6b⟩, ⟨⟨h7n, h7i⟩, h7b⟩, -⟩ := hbad
          obtain ⟨q0, he0, hq0⟩ := fin_entry_of_checks _ h0n h0i h0b
          obtain ⟨q1, he1, hq1⟩ := fin_entry_of_checks _ h1n h1i h1b
          obtain ⟨q2, he2, hq2⟩ := fin_entry_of_checks _ h2n h2i h2b
          obtain ⟨q3, he3, hq3⟩ := fin_entry_of_checks _ h3n h3i h3b
          obtain ⟨q4, he4, hq4⟩ := fin_entry_of_checks _ h4n h4i h4b
          obtain ⟨q5, he5, hq5⟩ := fin_entry_of_checks _ h5n h5i h5b
          obtain ⟨q6, he6, hq6⟩ := fin_entry_of_checks _ h6n h6i h6b
          obtain ⟨q7, he7, hq7⟩ := fin_entry_of_checks _ h7n h7i h7b
          right
          refine ⟨q0, q1, q2, q3, q4, q5, q6, q7, ?_, hq0, hq1, hq2, hq3, hq4, hq5, hq6, hq7⟩
          simp only [mkMatrix, he0, he1, he2, he3, he4, he5, he6, he7] at hri
          simp [hsv, hbad0, hri, mkMatrix, he0, he1, he2, he3, he4, he5, he6, he7]

/-! ### Construction of the 8×8 system (claim C5) -/

set_option maxHeartbeats 1600000 in
/-- C5: when the setup loop completes, row `i` of the system is
`[sx, sy, 1, 0, 0, 0, -sx*dx, -sy*dx]` with right-hand side `dx`, and row
`i+4` is `[0, 0, 0, sx, sy, 1, -sx*dy, -sy*dy]` with right-hand side `dy`. -/
theorem claim5_system_rows (s d : Corners) (A : Mat8) (b : Vec8)
    (h : buildSystem s d = some (A, b)) :
    ∀ i, i < 4 →
      (mget A i 0, mget A i 1, mget A i 2, mget A i 3, mget A i 4, mget A i 5,
       mget A i 6, mget A i 7, vget b i) =
        ((corner4 s d i).1, (corner4 s d i).2.1, .fin 1, .fin 0, .fin 0, .fin 0,
         ((corner4 s d i).1.neg).mul (corner4 s d i).2.2.1,
         ((corner4 s d i).2.1.neg).mul (corner4 s d i).2.2.1,
         (corner4 s d i).2.2.1) ∧
      (mget A (i + 4) 0, mget A (i + 4) 1, mget A (i + 4) 2, mget A (i + 4) 3,
       mget A (i + 4) 4, mget A (i + 4) 5, mget A (i + 4) 6, mget A (i + 4) 7,
       vget b (i + 4)) =
        (.fin 0, .fin 0, .fin 0, (corner4 s d i).1, (corner4 s d i).2.1, .fin 1,
         ((corner4 s d i).1.neg).mul (corner4 s d i).2.2.2,
         ((corner4 s d i).2.1.neg).mul (corner4 s d i).2.2.2,
         (corner4 s d i).2.2.2) := by
  have h4 : List.range 4 = [0, 1, 2, 3] := rfl
  cases h0 : cornerInf s d 0 <;>
    cases h1 : cornerInf s d 1 <;>
      cases h2 : cornerInf s d 2 <;>
        cases h3 : cornerInf s d 3 <;>
          simp only [buildSystem, h4, List.foldlM_cons, List.foldlM_nil, buildRows,
            h0, h1, h2, h3, Bool.false_eq_true, Bool.true_eq_false, if_true, if_false,
            ite_true, ite_false, Option.bind_some, Option.bind_none, Option.pure_def,
            Option.bind_eq_bind, Option.some_bind, Option.none_bind] at h
  case false.false.false.false =>
    rw [Option.some.injEq, Prod.mk.injEq] at h
    obtain ⟨hA, hb⟩ := h
    subst hA; subst hb
    intro i hi
    interval_cases i <;> exact ⟨rfl, rfl⟩
  all_goals exact absurd h (by simp)

/-! ### Partial pivoting (claim C4) -/

theorem edlt_nan_left (b : EDouble) : (EDouble.nan).lt b = false := by
  cases b <;> simp [EDouble.lt]

theorem isnan_false_of_ne (e : EDouble) (h : e ≠ .nan) : e.isnan = false := by
  cases e <;> simp_all [EDouble.isnan]

/-- If the running maximum is NaN, no candidate ever replaces it (every IEEE
comparison against NaN is false). -/
theorem pstep_freeze (a : Mat8) (i : Nat) :
    ∀ (L : List Nat) (p : Nat × EDouble), p.2 = .nan → L.foldl (pstep a i) p = p := by
  intro L
  induction L with
  | nil => intro p _; rfl
  | cons k t ih =>
    intro p hp
    have hstep : pstep a i p k = p := by
      simp [pstep, hp, edlt_nan_left]
    rw [List.foldl_cons, hstep, ih p hp]

/-- Invariant of the pivot-search fold: the running pair is always a row
index at least `i` paired with the `fabs` of that row's entry in column `i`,
it never strictly decreases, and no scanned candidate is strictly larger. -/
theorem pivot_fold_inv (a : Mat8) (i : Nat) :
    ∀ (L : List Nat) (p : Nat × EDouble),
      p.2 = (mget a p.1 i).fabs → i ≤ p.1 →
      (p.2.lt ((mget a i i).fabs)) = false →
      (L.foldl (pstep a i) p).2 = (mget a (L.foldl (pstep a i) p).1 i).fabs ∧
      i ≤ (L.foldl (pstep a i) p).1 ∧
      ((L.foldl (pstep a i) p).2.lt ((mget a i i).fabs)) = false ∧
      ((L.foldl (pstep a i) p).2.lt p.2) = false ∧
      ∀ k ∈ L, i < k → ((L.foldl (pstep a i) p).2.lt ((mget a k i).fabs)) = false := by
  intro L
  induction L with
  | nil =>
    intro p h1 h2 h3
    refine ⟨h1, h2, h3, ?_, ?_⟩
    · exact edlt_irrefl _
    · intro k hk; simp at hk
  | cons k t ih =>
    intro p h1 h2 h3
    rw [List.foldl_cons]
    by_cases hik : i < k
    · by_cases hup : p.2.lt ((mget a k i).fabs) = true
      · have hstep : pstep a i p k = (k, (mget a k i).fabs) := by
          simp [pstep, hik, hup]
        rw [hstep]
        have h3' : ((mget a k i).fabs).lt ((mget a i i).fabs) = false := by
          by_contra hc
          rw [Bool.not_eq_false] at hc
          have htr := edlt_trans hup hc
          rw [htr] at h3
          exact absurd h3 (by simp)
        obtain ⟨g1, g2, g3, g4, g5⟩ := ih (k, (mget a k i).fabs) rfl (le_of_lt hik) h3'
        refine ⟨g1, g2, g3, ?_, ?_⟩
        · by_contra hc
          rw [Bool.not_eq_false] at hc
          have htr := edlt_trans hc hup
          rw [htr] at g4
          exact absurd g4 (by simp)
        · intro k' hk' hik'
          rcases List.mem_cons.mp hk' with rfl | hmem
          · exact g4
          · exact g5 k' hmem hik'
      · have hupf : p.2.lt ((mget a k i).fabs) = false := by
          rw [← Bool.not_eq_true]; exact hup
        have hstep : pstep a i p k = p := by simp [pstep, hik, hupf]
        rw [hstep]
        obtain ⟨g1, g2, g3, g4, g5⟩ := ih p h1 h2 h3
        refine ⟨g1, g2, g3, g4, ?_⟩
        intro k' hk' hik'
        rcases List.mem_cons.mp hk' with rfl | hmem
        · by_contra hc
          rw [Bool.not_eq_false] at hc
          by_cases hnan : p.2 = .nan
          · have hq := pstep_freeze a i t p hnan
            rw [hq] at hc
            rw [hnan, edlt_nan_left] at hc
            exact absurd hc (by simp)
          · have hqn : (t.foldl (pstep a i) p).2.isnan = false := edlt_true_left_not_nan hc
            have hpn : p.2.isnan = false := isnan_false_of_ne _ hnan
            rcases edlt_total hqn hpn with h | h | h
            · rw [h] at g4; exact absurd g4 (by simp)
            · have htr := edlt_trans h hc
              rw [htr] at hupf
              exact absurd hupf (by simp)
            · rw [h] at hc
              rw [hc] at hupf
              exact absurd hupf (by simp)
        · exact g5 k' hmem hik'
    · have hstep : pstep a i p k = p := by simp [pstep, hik]
      rw [hstep]
      obtain ⟨g1, g2, g3, g4, g5⟩ := ih p h1 h2 h3
      refine ⟨g1, g2, g3, g4, ?_⟩
      intro k' hk' hik'
      rcases List.mem_cons.mp hk' with rfl | hmem
      · exact absurd hik' hik
      · exact g5 k' hmem hik'

/-- Full specification of one pivoting step, derived from the fold
invariant. -/
theorem pivotSearch_spec (a : Mat8) (i r : Nat) (v : EDouble)
    (hp : pivotSearch a i = (r, v)) :
    i ≤ r ∧ v = (mget a r i).fabs ∧
    (∀ k, i ≤ k → k < 8 → (v.lt ((mget a k i).fabs)) = false) ∧
    (v.lt epsVal = true → elimStep a i = none) ∧
    (v.lt epsVal = false →
      elimStep a i = some (elimBelow (if r ≠ i then swapRows a i r else a) i)) := by
  have hp' : (List.range 8).foldl (pstep a i) (i, (mget a i i).fabs) = (r, v) := hp
  obtain ⟨g1, g2, g3, g4, g5⟩ := pivot_fold_inv a i (List.range 8) (i, (mget a i i).fabs)
    rfl (le_refl i) (edlt_irrefl _)
  rw [hp'] at g1 g2 g3 g4 g5
  refine ⟨g2, g1, ?_, ?_, ?_⟩
  · intro k hik hk8
    rcases eq_or_lt_of_le hik with rfl | hlt
    · exact g3
    · exact g5 k (List.mem_range.mpr hk8) hlt
  · intro hlt
    simp only [elimStep, hp, hlt, if_true]
  · intro hlt
    simp only [elimStep, hp, hlt, Bool.false_eq_true, if_false]

/-- C4: the pivot search at column `i` selects a row `r ≥ i` whose entry
maximises `fabs(aug[k][i])` over rows `k ≥ i` (no scanned entry is strictly
larger under the IEEE comparison); when that maximum is below
`epsilon = 1e-10` the step fails with the `SingularMatrix` outcome, and
otherwise the pivot row is swapped into position `i` (when distinct) and
every row below has column `i` eliminated. -/
theorem claim4_partial_pivoting (a : Mat8) (i r : Nat) (v : EDouble)
    (hp : pivotSearch a i = (r, v)) :
    i ≤ r ∧ v = (mget a r i).fabs ∧
    (∀ k, i ≤ k → k < 8 → (v.lt ((mget a k i).fabs)) = false) ∧
    (v.lt epsVal = true → elimStep a i = none) ∧
    (v.lt epsVal = false →
      elimStep a i = some (elimBelow (if r ≠ i then swapRows a i r else a) i)) :=
  pivotSearch_spec a i r v hp

/-! ### The zero-pivot re-check is unreachable (claim C7) -/

theorem mget_elimRow_ne (a : Mat8) (i j r c : Nat) (h : r ≠ j) :
    mget (elimRow a i j) r c = mget a r c := by
  simp only [elimRow, mget, rget]
  rw [lget_lset_ne _ _ _ _ _ h]

/-- Elimination below row `i` leaves rows `r ≤ i` untouched. -/
theorem mget_elimBelow_le (a : Mat8) (i r : Nat) (hr : r ≤ i) :
    ∀ c, mget (elimBelow a i) r c = mget a r c := by
  intro c
  simp only [elimBelow]
  refine foldl_inv (ebstep i) (fun acc => mget acc r c = mget a r c) (List.range 8) a rfl ?_
  intro t j _ ht
  simp only [ebstep]
  by_cases hij : i < j
  · rw [if_pos hij, mget_elimRow_ne t i j r c (by omega)]
    exact ht
  · rw [if_neg hij]; exact ht

theorem mget_swapRows_other (a : Mat8) (r1 r2 r c : Nat) (h1 : r ≠ r1) (h2 : r ≠ r2) :
    mget (swapRows a r1 r2) r c = mget a r c := by
  simp only [swapRows, mget, rget]
  rw [lget_lset_ne _ _ _ _ _ h2, lget_lset_ne _ _ _ _ _ h1]

/-- After a successful elimination step at column `i`, the new diagonal entry
at `(i, i)` is the selected pivot, so its magnitude passes the epsilon
check. -/
theorem elimStep_some_pivot (a : Mat8) (i : Nat) (a' : Mat8) (h : elimStep a i = some a') :
    ((mget a' i i).fabs).lt epsVal = false := by
  rcases hp : pivotSearch a i with ⟨r, v⟩
  obtain ⟨hir, hv, hmax, hnone, hsome⟩ := pivotSearch_spec a i r v hp
  by_cases hlt : v.lt epsVal = true
  · rw [hnone hlt] at h; exact Option.noConfusion h
  · have hltf : v.lt epsVal = false := by rw [← Bool.not_eq_true]; exact hlt
    rw [hsome hltf] at h
    injection h with h'
    subst h'
    rw [mget_elimBelow_le _ i i (le_refl i)]
    by_cases hri : r = i
    · rw [if_neg (by simp [hri])]
      subst hri
      rw [← hv]
      exact hltf
    · rw [if_pos hri]
      have hfin0 : ((EDouble.fin 0).fabs).lt epsVal = true := by decide
      have hrlen : r < a.length := by
        by_contra hge
        push_neg at hge
        have hrow : rget a r = [] := lget_of_le [] a r hge
        have hz : mget a r i = .fin 0 := by simp [mget, hrow, vget, lget]
        rw [hz] at hv
        rw [hv, hfin0] at hltf
        exact absurd hltf (by simp)
      have hilen : i < a.length := lt_of_le_of_lt hir hrlen
      have hrow : rget (swapRows a i r) i = rget a r := by
        simp only [swapRows, rget]
        rw [lget_lset_ne _ _ _ _ _ (fun hh => hri hh.symm)]
        rw [lget_lset_eq _ _ _ _ hilen]
      show ((vget (rget (swapRows a i r) i) i).fabs).lt epsVal = false
      rw [hrow]
      show ((mget a r i).fabs).lt epsVal = false
      rw [← hv]
      exact hltf

/-- A successful elimination step at column `i` leaves rows above `i`
untouched. -/
theorem elimStep_some_preserve (a : Mat8) (i : Nat) (a' : Mat8) (h : elimStep a i = some a')
    (r : Nat) (hr : r < i) : ∀ c, mget a' r c = mget a r c := by
  rcases hp : pivotSearch a i with ⟨rr, v⟩
  obtain ⟨hir, hv, hmax, hnone, hsome⟩ := pivotSearch_spec a i rr v hp
  by_cases hlt : v.lt epsVal = true
  · rw [hnone hlt] at h; exact Option.noConfusion h
  · have hltf : v.lt epsVal = false := by rw [← Bool.not_eq_true]; exact hlt
    rw [hsome hltf] at h
    injection h with h'
    subst h'
    intro c
    rw [mget_elimBelow_le _ i r (le_of_lt hr)]
    by_cases hri : rr = i
    · rw [if_neg (by simp [hri])]
    · rw [if_pos hri]
      exact mget_swapRows_other a i rr r c (by omega) (by omega)

/-- A failed forward-elimination state stays failed. -/
theorem fe_false (L : List Nat) (a : Mat8) : L.foldl festep (false, a) = (false, a) := by
  induction L with
  | nil => rfl
  | cons k t ih => rw [List.foldl_cons]; exact ih

/-- Later successful elimination steps do not modify row `j` when every
remaining step index is larger than `j`. -/
theorem fe_preserve_row : ∀ (L : List Nat) (a augF : Mat8) (j : Nat),
    (∀ m ∈ L, j < m) → L.foldl festep (true, a) = (true, augF) →
    ∀ c, mget augF j c = mget a j c := by
  intro L
  induction L with
  | nil =>
    intro a augF j _ h c
    injection h with _ h2
    rw [h2]
  | cons m t ih =>
    intro a augF j hmem h c
    rw [List.foldl_cons] at h
    cases he : elimStep a m with
    | none =>
      rw [show festep (true, a) m = (false, a) by simp [festep, he]] at h
      rw [fe_false] at h
      injection h with h1 _
      exact absurd h1 (by simp)
    | some a1 =>
      rw [show festep (true, a) m = (true, a1) by simp [festep, he]] at h
      rw [ih a1 augF j (fun m' hm' => hmem m' (List.mem_cons_of_mem _ hm')) h c]
      exact elimStep_some_preserve a m a1 he j (hmem m (List.mem_cons_self _ _)) c

/-- After a completed forward elimination, every diagonal entry that was a
pivot passes the epsilon check. -/
theorem fe_pivots : ∀ (L : List Nat) (a augF : Mat8),
    List.Pairwise (· < ·) L → L.foldl festep (true, a) = (true, augF) →
    ∀ j ∈ L, ((mget augF j j).fabs).lt epsVal = false := by
  intro L
  induction L with
  | nil => intro a augF _ _ j hj; simp at hj
  | cons m t ih =>
    intro a augF hpw h j hj
    rw [List.foldl_cons] at h
    cases he : elimStep a m with
    | none =>
      rw [show festep (true, a) m = (false, a) by simp [festep, he]] at h
      rw [fe_false] at h
      injection h with h1 _
      exact absurd h1 (by simp)
    | some a1 =>
      rw [show festep (true, a) m = (true, a1) by simp [festep, he]] at h
      rcases List.mem_cons.mp hj with rfl | hmem
      · have hrow := fe_preserve_row t a1 augF j (List.pairwise_cons.mp hpw).1 h
        rw [hrow j]
        exact elimStep_some_pivot a j a1 he
      · exact ih a1 augF (List.pairwise_cons.mp hpw).2 h j hmem

/-- The back-substitution fold never reports `ZeroPivot` when every diagonal
entry passes the epsilon check. -/
theorem bs_no_zero_pivot (a : Mat8) : ∀ (L : List Nat) (st : Option BackSubError × Vec8),
    st.1 ≠ some .zeroPivot → (∀ i ∈ L, ((mget a i i).fabs).lt epsVal = false) →
    (L.foldl (bstep a) st).1 ≠ some .zeroPivot := by
  intro L
  induction L with
  | nil => intro st h _; exact h
  | cons m t ih =>
    intro st h hall
    rw [List.foldl_cons]
    apply ih
    · rcases st with ⟨e, y⟩
      cases e with
      | some e' => exact h
      | none =>
        show (backSubAt a y m).1 ≠ some .zeroPivot
        simp only [backSubAt]
        rw [hall m (List.mem_cons_self _ _)]
        rw [if_neg (by simp)]
        split
        · simp
        · simp
    · intro i hi; exact hall i (List.mem_cons_of_mem _ hi)

/-- C7: whenever forward elimination completes without reporting a singular
matrix, every diagonal entry re-checked during back-substitution has
magnitude at least `epsilon`, so the `ZeroPivot` branch never fires. -/
theorem claim7_zero_pivot_unreachable (a augF : Mat8) (h : forwardElim a = (true, augF)) :
    (∀ i, i < 8 → ((mget augF i i).fabs).lt epsVal = false) ∧
    ∀ x : Vec8, (backSub augF x).1 ≠ some BackSubError.zeroPivot := by
  have hpw : List.Pairwise (· < ·) (List.range 8) := by decide
  have hp := fe_pivots (List.range 8) a augF hpw h
  constructor
  · intro i hi; exact hp i (List.mem_range.mpr hi)
  · intro x
    show (((List.range 8).reverse).foldl (bstep augF) (none, x)).1 ≠ some BackSubError.zeroPivot
    apply bs_no_zero_pivot augF ((List.range 8).reverse) (none, x) (by simp)
    intro i hi
    exact hp i (List.mem_reverse.mp hi)

/-! ### Successful solves return finite values (claim C9) -/

theorem isFinite_of_checks (e : EDouble) (h1 : e.isnan = false) (h2 : e.isinf = false) :
    e.isFinite = true := by
  cases e <;> simp_all [EDouble.isnan, EDouble.isinf, EDouble.isFinite]

/-- An error state propagates unchanged through the back-substitution fold. -/
theorem bs_some_freeze (a : Mat8) : ∀ (L : List Nat) (e : BackSubError) (y : Vec8),
    L.foldl (bstep a) (some e, y) = (some e, y) := by
  intro L
  induction L with
  | nil => intro e y; rfl
  | cons m t ih => intro e y; rw [List.foldl_cons]; exact ih e y

/-- A step of back substitution that does not fail at the pivot re-check
writes exactly one entry, and on success that entry passed the NaN/infinity
check. -/
theorem backSubAt_none (a : Mat8) (x : Vec8) (i : Nat) (h : (backSubAt a x i).1 = none) :
    ∃ xi, (backSubAt a x i).2 = lset x i xi ∧ xi.isnan = false ∧ xi.isinf = false := by
  revert h
  simp only [backSubAt]
  split
  · intro h; simp at h
  · split
    case isTrue => intro h; simp at h
    case isFalse hcond =>
      intro _
      have hc : _ = false := Bool.eq_false_iff.mpr hcond
      rw [Bool.or_eq_false_iff] at hc
      exact ⟨_, rfl, hc.1, hc.2⟩

/-- Entries at indices not processed by the fold are unchanged. -/
theorem bs_untouched (a : Mat8) : ∀ (L : List Nat) (st : Option BackSubError × Vec8) (j : Nat),
    j ∉ L → vget ((L.foldl (bstep a) st).2) j = vget st.2 j := by
  intro L
  induction L with
  | nil => intro st j _; rfl
  | cons m t ih =>
    intro st j hj
    have hjm : j ≠ m := fun hh => hj (hh ▸ List.mem_cons_self m t)
    have hjt : j ∉ t := fun hh => hj (List.mem_cons_of_mem m hh)
    rw [List.foldl_cons, ih _ j hjt]
    rcases st with ⟨e, y⟩
    cases e with
    | some e' => rfl
    | none =>
      show vget ((backSubAt a y m).2) j = vget y j
      simp only [backSubAt]
      split
      · rfl
      · split
        · exact lget_lset_ne _ _ _ _ _ hjm
        · exact lget_lset_ne _ _ _ _ _ hjm

/-- When the whole back substitution succeeds, every processed entry of the
final vector is finite. -/
theorem bs_finite (a : Mat8) : ∀ (L : List Nat) (x xF : Vec8),
    L.Nodup → (∀ i ∈ L, i < 8) → x.length = 8 →
    L.foldl (bstep a) (none, x) = (none, xF) →
    ∀ i ∈ L, (vget xF i).isFinite = true := by
  intro L
  induction L with
  | nil => intro x xF _ _ _ _ i hi; simp at hi
  | cons m t ih =>
    intro x xF hnd hmem hlen h i hi
    rw [List.foldl_cons] at h
    rcases hba : bstep a (none, x) m with ⟨e, y⟩
    rw [hba] at h
    cases e with
    | some e' =>
      rw [bs_some_freeze] at h
      injection h with h1 _
      exact absurd h1 (by simp)
    | none =>
      have hba' : backSubAt a x m = (none, y) := hba
      obtain ⟨xi, h2, hn, hi2⟩ := backSubAt_none a x m (by rw [hba'])
      have hy : y = lset x m xi := by rw [← h2, hba']
      subst hy
      rcases List.mem_cons.mp hi with rfl | hmem'
      · have hnt : i ∉ t := (List.nodup_cons.mp hnd).1
        have hun := bs_untouched a t (none, lset x i xi) i hnt
        rw [h] at hun
        have hun' : vget xF i = vget (lset x i xi) i := hun
        have hlt : i < x.length := by
          rw [hlen]; exact hmem i (List.mem_cons_self _ _)
        have hvv : vget (lset x i xi) i = xi := lget_lset_eq _ _ x i hlt
        rw [hun', hvv]
        exact isFinite_of_checks xi hn hi2
      · exact ih (lset x m xi) xF (List.nodup_cons.mp hnd).2
          (fun j hj => hmem j (List.mem_cons_of_mem _ hj))
          (by rw [length_lset]; exact hlen) h i hmem'

/-- C9: whenever `solve_linear_system` reports success, every entry of the
returned solution vector is finite (neither NaN nor infinite), for every
input matrix and right-hand side. -/
theorem claim9_success_finite (A : Mat8) (b : Vec8) (x : Vec8)
    (h : solveSystem A b = some x) : ∀ i, i < 8 → (vget x i).isFinite = true := by
  set s0 : SolverState := { A := A, b := b, aug := [], x := List.replicate 8 (.fin 0) } with hs0
  have hdef : solve_linear_system s0 =
      (match forwardElim (initAug s0).aug with
       | (false, augF) => (false, { initAug s0 with aug := augF })
       | (true, augF) =>
         match backSub augF (initAug s0).x with
         | (some _, xF) => (false, { initAug s0 with aug := augF, x := xF })
         | (none, xF) => (true, { initAug s0 with aug := augF, x := xF })) := rfl
  have hsv : solveSystem A b =
      (if (solve_linear_system s0).1 then some (solve_linear_system s0).2.x else none) := rfl
  rw [hsv, hdef] at h
  rcases hfe : forwardElim (initAug s0).aug with ⟨ok, augF⟩
  rw [hfe] at h
  cases ok
  · simp at h
  · rcases hbs : backSub augF (initAug s0).x with ⟨err, xF⟩
    simp only [hbs] at h
    cases err with
    | some e => simp at h
    | none =>
      simp at h
      subst h
      intro i hi
      have hxinit : (initAug s0).x = List.replicate 8 (.fin 0) := rfl
      exact bs_finite augF ((List.range 8).reverse) (initAug s0).x xF
        (List.nodup_reverse.mpr (List.nodup_range 8))
        (fun j hj => List.mem_range.mp (List.mem_reverse.mp hj))
        (by rw [hxinit]; simp)
        hbs
        i (List.mem_reverse.mpr (List.mem_range.mpr hi))

/-! ### Concrete scenario: uniform 2x scale (claim C8) -/

/-- The unit square `{tl:(0,0), tr:(1,0), br:(1,1), bl:(0,1)}`. -/
def srcUnitSquare : Corners := ⟨.fin 0, .fin 0, .fin 1, .fin 0, .fin 1, .fin 1, .fin 0, .fin 1⟩

/-- The doubled square `{tl:(0,0), tr:(2,0), br:(2,2), bl:(0,2)}`. -/
def dstDoubleSquare : Corners := ⟨.fin 0, .fin 0, .fin 2, .fin 0, .fin 2, .fin 2, .fin 0, .fin 2⟩

set_option maxRecDepth 8000 in
set_option maxHeartbeats 4000000 in
/-- C8: for the unit square mapped to the doubled square, the computed
transform is exactly the uniform 2x scale matrix (the model computes with
exact rationals, so the entries are exact, in particular within any
floating-point tolerance). -/
theorem claim8_uniform_scale :
    calculate_perspective_transform (some srcUnitSquare) (some dstDoubleSquare) =
      { m00 := .fin 2, m01 := .fin 0, m02 := .fin 0, m10 := .fin 0, m11 := .fin 2,
        m12 := .fin 0, m20 := .fin 0, m21 := .fin 0, m22 := .fin 1 } := by decide

/-! ### Collinear source points force the identity fallback (claim C6)

The four collinear source points `(0,0), (1,0), (2,0), (3,0)` produce a
system whose column 1 is identically zero.  Elimination step 0 succeeds
(column 0 is `[0,1,2,3,0,0,0,0]`, pivot 3), and after it column 1 of the
remaining rows is still identically zero, so the pivot search at column 1
finds magnitude 0 and the solver fails -- for every finite destination. -/

/-- The collinear source corner set `(0,0), (1,0), (2,0), (3,0)`. -/
def c6Src : Corners := ⟨.fin 0, .fin 0, .fin 1, .fin 0, .fin 2, .fin 0, .fin 3, .fin 0⟩

/-- An arbitrary destination corner set with finite coordinates. -/
def c6Dst (d0x d0y d1x d1y d2x d2y d3x d3y : ℚ) : Corners :=
  ⟨.fin d0x, .fin d0y, .fin d1x, .fin d1y, .fin d2x, .fin d2y, .fin d3x, .fin d3y⟩

/-- The coefficient matrix built for the collinear configuration. -/
def c6A (d0x d0y d1x d1y d2x d2y d3x d3y : ℚ) : Mat8 :=
  ((buildSystem c6Src (c6Dst d0x d0y d1x d1y d2x d2y d3x d3y)).getD (zeroMat, zeroVec)).1

/-- The right-hand side built for the collinear configuration. -/
def c6b (d0x d0y d1x d1y d2x d2y d3x d3y : ℚ) : Vec8 :=
  ((buildSystem c6Src (c6Dst d0x d0y d1x d1y d2x d2y d3x d3y)).getD (zeroMat, zeroVec)).2

/-- The augmented matrix at the start of forward elimination. -/
def c6Aug0 (d0x d0y d1x d1y d2x d2y d3x d3y : ℚ) : Mat8 :=
  (initAug { A := c6A d0x d0y d1x d1y d2x d2y d3x d3y,
             b := c6b d0x d0y d1x d1y d2x d2y d3x d3y,
             aug := [], x := List.replicate 8 (.fin 0) }).aug

/-- The augmented matrix after the first elimination step (pivot row 3
swapped up, column 0 eliminated below). -/
def c6Aug1 (d0x d0y d1x d1y d2x d2y d3x d3y : ℚ) : Mat8 :=
  elimBelow (swapRows (c6Aug0 d0x d0y d1x d1y d2x d2y d3x d3y) 0 3) 0

theorem c6_nan (d0x d0y d1x d1y d2x d2y d3x d3y : ℚ) :
    hasNaNInput c6Src (c6Dst d0x d0y d1x d1y d2x d2y d3x d3y) = false := rfl

set_option maxHeartbeats 1000000 in
theorem c6_build (d0x d0y d1x d1y d2x d2y d3x d3y : ℚ) :
    buildSystem c6Src (c6Dst d0x d0y d1x d1y d2x d2y d3x d3y) =
      some (c6A d0x d0y d1x d1y d2x d2y d3x d3y, c6b d0x d0y d1x d1y d2x d2y d3x d3y) := rfl

set_option maxHeartbeats 4000000 in
theorem c6_pivot0 (d0x d0y d1x d1y d2x d2y d3x d3y : ℚ) :
    pivotSearch (c6Aug0 d0x d0y d1x d1y d2x d2y d3x d3y) 0 = (3, .fin 3) := rfl

set_option maxHeartbeats 1000000 in
theorem c6_step0 (d0x d0y d1x d1y d2x d2y d3x d3y : ℚ) :
    elimStep (c6Aug0 d0x d0y d1x d1y d2x d2y d3x d3y) 0 =
      some (c6Aug1 d0x d0y d1x d1y d2x d2y d3x d3y) := by
  have key : ∀ a : Mat8, pivotSearch a 0 = (3, .fin 3) →
      elimStep a 0 = some (elimBelow (swapRows a 0 3) 0) := by
    intro a hp
    have hlt : (EDouble.fin 3).lt epsVal = false := by decide
    simp only [elimStep, hp, hlt, Bool.false_eq_true, if_false]
    rw [if_pos (by decide)]
  exact key _ (c6_pivot0 d0x d0y d1x d1y d2x d2y d3x d3y)

set_option maxHeartbeats 2000000 in
theorem c6_col1_1 (d0x d0y d1x d1y d2x d2y d3x d3y : ℚ) :
    mget (c6Aug1 d0x d0y d1x d1y d2x d2y d3x d3y) 1 1 = .fin 0 := rfl

set_option maxHeartbeats 2000000 in
theorem c6_col1_2 (d0x d0y d1x d1y d2x d2y d3x d3y : ℚ) :
    mget (c6Aug1 d0x d0y d1x d1y d2x d2y d3x d3y) 2 1 = .fin 0 := rfl

set_option maxHeartbeats 2000000 in
theorem c6_col1_3 (d0x d0y d1x d1y d2x d2y d3x d3y : ℚ) :
    mget (c6Aug1 d0x d0y d1x d1y d2x d2y d3x d3y) 3 1 = .fin 0 := rfl

set_option maxHeartbeats 2000000 in
theorem c6_col1_4 (d0x d0y d1x d1y d2x d2y d3x d3y : ℚ) :
    mget (c6Aug1 d0x d0y d1x d1y d2x d2y d3x d3y) 4 1 = .fin 0 := rfl

set_option maxHeartbeats 2000000 in
theorem c6_col1_5 (d0x d0y d1x d1y d2x d2y d3x d3y : ℚ) :
    mget (c6Aug1 d0x d0y d1x d1y d2x d2y d3x d3y) 5 1 = .fin 0 := rfl

set_option maxHeartbeats 2000000 in
theorem c6_col1_6 (d0x d0y d1x d1y d2x d2y d3x d3y : ℚ) :
    mget (c6Aug1 d0x d0y d1x d1y d2x d2y d3x d3y) 6 1 = .fin 0 := rfl

set_option maxHeartbeats 2000000 in
theorem c6_col1_7 (d0x d0y d1x d1y d2x d2y d3x d3y : ℚ) :
    mget (c6Aug1 d0x d0y d1x d1y d2x d2y d3x d3y) 7 1 = .fin 0 := rfl

theorem c6_pivot1 (d0x d0y d1x d1y d2x d2y d3x d3y : ℚ) :
    pivotSearch (c6Aug1 d0x d0y d1x d1y d2x d2y d3x d3y) 1 = (1, .fin 0) := by
  have key : ∀ a : Mat8,
      mget a 1 1 = .fin 0 → mget a 2 1 = .fin 0 → mget a 3 1 = .fin 0 →
      mget a 4 1 = .fin 0 → mget a 5 1 = .fin 0 → mget a 6 1 = .fin 0 →
      mget a 7 1 = .fin 0 → pivotSearch a 1 = (1, .fin 0) := by
    intro a h1 h2 h3 h4 h5 h6 h7
    have hf : (EDouble.fin 0).fabs = .fin 0 := by decide
    have hl : (EDouble.fin 0).lt (EDouble.fin 0) = false := by decide
    show (List.range 8).foldl (pstep a 1) (1, (mget a 1 1).fabs) = (1, .fin 0)
    rw [show List.range 8 = [0, 1, 2, 3, 4, 5, 6, 7] from rfl]
    simp only [List.foldl_cons, List.foldl_nil]
    simp [pstep, h1, h2, h3, h4, h5, h6, h7, hf, hl]
  exact key _ (c6_col1_1 d0x d0y d1x d1y d2x d2y d3x d3y)
    (c6_col1_2 d0x d0y d1x d1y d2x d2y d3x d3y)
    (c6_col1_3 d0x d0y d1x d1y d2x d2y d3x d3y)
    (c6_col1_4 d0x d0y d1x d1y d2x d2y d3x d3y)
    (c6_col1_5 d0x d0y d1x d1y d2x d2y d3x d3y)
    (c6_col1_6 d0x d0y d1x d1y d2x d2y d3x d3y)
    (c6_col1_7 d0x d0y d1x d1y d2x d2y d3x d3y)

theorem c6_step1 (d0x d0y d1x d1y d2x d2y d3x d3y : ℚ) :
    elimStep (c6Aug1 d0x d0y d1x d1y d2x d2y d3x d3y) 1 = none := by
  have key : ∀ a : Mat8, pivotSearch a 1 = (1, .fin 0) → elimStep a 1 = none := by
    intro a hp
    have hlt : (EDouble.fin 0).lt epsVal = true := by decide
    simp only [elimStep, hp, hlt, if_true]
  exact key _ (c6_pivot1 d0x d0y d1x d1y d2x d2y d3x d3y)

theorem c6_forward (d0x d0y d1x d1y d2x d2y d3x d3y : ℚ) :
    forwardElim (c6Aug0 d0x d0y d1x d1y d2x d2y d3x d3y) =
      (false, c6Aug1 d0x d0y d1x d1y d2x d2y d3x d3y) := by
  have key : ∀ a0 a1 : Mat8, elimStep a0 0 = some a1 → elimStep a1 1 = none →
      forwardElim a0 = (false, a1) := by
    intro a0 a1 h0 h1
    show (List.range 8).foldl festep (true, a0) = (false, a1)
    rw [show List.range 8 = [0, 1, 2, 3, 4, 5, 6, 7] from rfl]
    simp only [List.foldl_cons, List.foldl_nil]
    rw [show festep (true, a0) 0 = (true, a1) by simp [festep, h0]]
    rw [show festep (true, a1) 1 = (false, a1) by simp [festep, h1]]
    rfl
  exact key _ _ (c6_step0 d0x d0y d1x d1y d2x d2y d3x d3y)
    (c6_step1 d0x d0y d1x d1y d2x d2y d3x d3y)

theorem c6_solve (d0x d0y d1x d1y d2x d2y d3x d3y : ℚ) :
    solveSystem (c6A d0x d0y d1x d1y d2x d2y d3x d3y)
      (c6b d0x d0y d1x d1y d2x d2y d3x d3y) = none := by
  have key : ∀ (s0 : SolverState) (a1 : Mat8), forwardElim (initAug s0).aug = (false, a1) →
      (if (solve_linear_system s0).1 then some (solve_linear_system s0).2.x else none) = none := by
    intro s0 a1 hfe
    have hdef : solve_linear_system s0 =
        (match forwardElim (initAug s0).aug with
         | (false, augF) => (false, { initAug s0 with aug := augF })
         | (true, augF) =>
           match backSub augF (initAug s0).x with
           | (some _, xF) => (false, { initAug s0 with aug := augF, x := xF })
           | (none, xF) => (true, { initAug s0 with aug := augF, x := xF })) := rfl
    rw [hdef, hfe]
    rfl
  exact key { A := c6A d0x d0y d1x d1y d2x d2y d3x d3y,
              b := c6b d0x d0y d1x d1y d2x d2y d3x d3y,
              aug := [], x := List.replicate 8 (.fin 0) } _
    (c6_forward d0x d0y d1x d1y d2x d2y d3x d3y)

/-- C6: the four collinear source points `(0,0), (1,0), (2,0), (3,0)` paired
with any destination corner set whose coordinates are finite (hence neither
NaN nor infinite) yield exactly the identity matrix: the built 8x8 system is
singular and forward elimination fails at column 1. -/
theorem claim6_collinear_fallback (d0x d0y d1x d1y d2x d2y d3x d3y : ℚ) :
    calculate_perspective_transform (some c6Src)
      (some (c6Dst d0x d0y d1x d1y d2x d2y d3x d3y)) = identityMatrix := by
  have key : ∀ (s d : Corners) (A : Mat8) (b : Vec8),
      hasNaNInput s d = false → buildSystem s d = some (A, b) → solveSystem A b = none →
      calculate_perspective_transform (some s) (some d) = identityMatrix := by
    intro s d A b hn hb hs
    simp only [calculate_perspective_transform, hn, Bool.false_eq_true, if_false, hb, hs]
  exact key _ _ _ _ (c6_nan d0x d0y d1x d1y d2x d2y d3x d3y)
    (c6_build d0x d0y d1x d1y d2x d2y d3x d3y)
    (c6_solve d0x d0y d1x d1y d2x d2y d3x d3y)

/-! ### Witnesses -/

/-- A corner set with a NaN coordinate. -/
def nanCorners : Corners := ⟨.nan, .fin 0, .fin 0, .fin 0, .fin 0, .fin 0, .fin 0, .fin 0⟩

/-- The all-zero corner set. -/
def zeroCorners : Corners := ⟨.fin 0, .fin 0, .fin 0, .fin 0, .fin 0, .fin 0, .fin 0, .fin 0⟩

theorem claim1_total_fallback_witness :
    calculate_perspective_transform none none = identityMatrix :=
  claim1_total_fallback none none (Or.inl rfl)

theorem claim3_null_nan_inf_witness :
    calculate_perspective_transform (some nanCorners) (some zeroCorners) = identityMatrix :=
  claim3_null_nan_inf (some nanCorners) (some zeroCorners)
    (Or.inr (Or.inr ⟨nanCorners, zeroCorners, rfl, rfl, Or.inl (by decide)⟩))

theorem claim4_partial_pivoting_witness :
    0 ≤ 0 ∧ EDouble.fin 0 = (mget zeroMat 0 0).fabs ∧
    (∀ k, 0 ≤ k → k < 8 → ((EDouble.fin 0).lt ((mget zeroMat k 0).fabs)) = false) ∧
    ((EDouble.fin 0).lt epsVal = true → elimStep zeroMat 0 = none) ∧
    ((EDouble.fin 0).lt epsVal = false →
      elimStep zeroMat 0 = some (elimBelow (if 0 ≠ 0 then swapRows zeroMat 0 0 else zeroMat) 0)) :=
  claim4_partial_pivoting zeroMat 0 0 (.fin 0) (by decide)

/-- The coefficient matrix built for the C8 scenario, used as a concrete
instance for the row-construction claim. -/
def c5WitA : Mat8 := ((buildSystem srcUnitSquare dstDoubleSquare).getD (zeroMat, zeroVec)).1

/-- The right-hand side built for the C8 scenario. -/
def c5Witb : Vec8 := ((buildSystem srcUnitSquare dstDoubleSquare).getD (zeroMat, zeroVec)).2

theorem claim5_system_rows_witness :
    (mget c5WitA 0 0, mget c5WitA 0 1, mget c5WitA 0 2, mget c5WitA 0 3, mget c5WitA 0 4,
     mget c5WitA 0 5, mget c5WitA 0 6, mget c5WitA 0 7, vget c5Witb 0) =
      ((corner4 srcUnitSquare dstDoubleSquare 0).1, (corner4 srcUnitSquare dstDoubleSquare 0).2.1,
       .fin 1, .fin 0, .fin 0, .fin 0,
       ((corner4 srcUnitSquare dstDoubleSquare 0).1.neg).mul
         (corner4 srcUnitSquare dstDoubleSquare 0).2.2.1,
       ((corner4 srcUnitSquare dstDoubleSquare 0).2.1.neg).mul
         (corner4 srcUnitSquare dstDoubleSquare 0).2.2.1,
       (corner4 srcUnitSquare dstDoubleSquare 0).2.2.1) ∧
    (mget c5WitA 4 0, mget c5WitA 4 1, mget c5WitA 4 2, mget c5WitA 4 3, mget c5WitA 4 4,
     mget c5WitA 4 5, mget c5WitA 4 6, mget c5WitA 4 7, vget c5Witb 4) =
      (.fin 0, .fin 0, .fin 0, (corner4 srcUnitSquare dstDoubleSquare 0).1,
       (corner4 srcUnitSquare dstDoubleSquare 0).2.1, .fin 1,
       ((corner4 srcUnitSquare dstDoubleSquare 0).1.neg).mul
         (corner4 srcUnitSquare dstDoubleSquare 0).2.2.2,
       ((corner4 srcUnitSquare dstDoubleSquare 0).2.1.neg).mul
         (corner4 srcUnitSquare dstDoubleSquare 0).2.2.2,
       (corner4 srcUnitSquare dstDoubleSquare 0).2.2.2) :=
  claim5_system_rows srcUnitSquare dstDoubleSquare c5WitA c5Witb rfl 0 (by decide)

/-- A well-conditioned augmented matrix (identity coefficients, unit
right-hand side) on which forward elimination succeeds. -/
def augWitness : Mat8 :=
  (List.range 8).map (fun r => (List.range 9).map (fun c => if c = r then .fin 1 else .fin 0))

set_option maxRecDepth 8000 in
set_option maxHeartbeats 4000000 in
theorem claim7_zero_pivot_unreachable_witness :
    (∀ i, i < 8 → ((mget (forwardElim augWitness).2 i i).fabs).lt epsVal = false) ∧
    ∀ x : Vec8, (backSub (forwardElim augWitness).2 x).1 ≠ some BackSubError.zeroPivot :=
  claim7_zero_pivot_unreachable augWitness (forwardElim augWitness).2 (by decide)

/-- The identity coefficient matrix. -/
def idA : Mat8 :=
  (List.range 8).map (fun r => (List.range 8).map (fun c => if c = r then .fin 1 else .fin 0))

/-- An all-ones right-hand side. -/
def oneb : Vec8 := List.replicate 8 (.fin 1)

set_option maxRecDepth 8000 in
set_option maxHeartbeats 4000000 in
theorem claim9_success_finite_witness :
    (vget (List.replicate 8 (.fin 1)) 0).isFinite = true :=
  claim9_success_finite idA oneb (List.replicate 8 (.fin 1)) (by decide) 0 (by decide)
